import Mathlib

/-!
Verification of pgspectre's detection pipeline against its specification.

The Go source is shallowly embedded: Go strings become `String`, `int64`
becomes `Int`, Go maps become association lists or membership predicates
with Go's insert-overwrites semantics made explicit, and byte slices become
`List Nat` (each entry < 256).  File contents read from disk are modelled as
already-decoded values (a baseline file is its fingerprint list).
-/

namespace PgSpectre

/-! ## Bytes, UTF-8 and SHA-256 (crypto/sha256 as used by baseline.Fingerprint) -/

/-- UTF-8 encoding of one character, as Go's `[]byte(string)` produces. -/
def charUtf8 (c : Char) : List Nat :=
  let n := c.toNat
  if n < 128 then [n]
  else if n < 2048 then [192 + n / 64, 128 + n % 64]
  else if n < 65536 then [224 + n / 4096, 128 + (n / 64) % 64, 128 + n % 64]
  else [240 + n / 262144, 128 + (n / 4096) % 64, 128 + (n / 64) % 64, 128 + n % 64]

/-- UTF-8 bytes of a string (Go `[]byte(s)`). -/
def utf8Bytes (s : String) : List Nat :=
  s.data.foldr (fun c acc => charUtf8 c ++ acc) []

/-- The modulus 2^32 of 32-bit words. -/
def M32 : Nat := 4294967296

/-- Right rotation of a 32-bit word. -/
def rotr32 (n x : Nat) : Nat :=
  ((x >>> n) ||| (x <<< (32 - n))) % M32

def shaCh (e f g : Nat) : Nat := (e &&& f) ^^^ ((M32 - 1 - e % M32) &&& g)

def shaMaj (a b c : Nat) : Nat := (a &&& b) ^^^ (a &&& c) ^^^ (b &&& c)

def bigSigma0 (x : Nat) : Nat := rotr32 2 x ^^^ rotr32 13 x ^^^ rotr32 22 x

def bigSigma1 (x : Nat) : Nat := rotr32 6 x ^^^ rotr32 11 x ^^^ rotr32 25 x

def smallSigma0 (x : Nat) : Nat := rotr32 7 x ^^^ rotr32 18 x ^^^ (x >>> 3)

def smallSigma1 (x : Nat) : Nat := rotr32 17 x ^^^ rotr32 19 x ^^^ (x >>> 10)

/-- The SHA-256 round constants (decimal). -/
def K256 : List Nat :=
  [1116352408, 1899447441, 3049323471, 3921009573, 961987163,
   1508970993, 2453635748, 2870763221, 3624381080, 310598401,
   607225278, 1426881987, 1925078388, 2162078206, 2614888103,
   3248222580, 3835390401, 4022224774, 264347078, 604807628,
   770255983, 1249150122, 1555081692, 1996064986, 2554220882,
   2821834349, 2952996808, 3210313671, 3336571891, 3584528711,
   113926993, 338241895, 666307205, 773529912, 1294757372,
   1396182291, 1695183700, 1986661051, 2177026350, 2456956037,
   2730485921, 2820302411, 3259730800, 3345764771, 3516065817,
   3600352804, 4094571909, 275423344, 430227734, 506948616,
   659060556, 883997877, 958139571, 1322822218, 1537002063,
   1747873779, 1955562222, 2024104815, 2227730452, 2361852424,
   2428436474, 2756734187, 3204031479, 3329325298]

/-- The SHA-256 initial hash state (decimal). -/
def H256 : List Nat :=
  [1779033703, 3144134277, 1013904242, 2773480762, 1359893119,
   2600822924, 528734635, 1541459225]

/-- Big-endian bytes of a number, fixed width. -/
def beBytes (width n : Nat) : List Nat :=
  (List.range width).map fun i => (n >>> ((width - 1 - i) * 8)) % 256

/-- SHA-256 padding: append 0x80, zero bytes to 56 mod 64, then the 64-bit bit length. -/
def sha256Pad (msg : List Nat) : List Nat :=
  let len := msg.length
  let zeros := (64 + 55 - len % 64) % 64
  msg ++ [128] ++ List.replicate zeros 0 ++ beBytes 8 (len * 8)

/-- Split a byte list into 64-byte chunks (fueled recursion; fuel = length suffices). -/
def chunksAux : Nat → List Nat → List (List Nat)
  | 0, _ => []
  | _ + 1, [] => []
  | fuel + 1, l => l.take 64 :: chunksAux fuel (l.drop 64)

def chunks64 (l : List Nat) : List (List Nat) := chunksAux l.length l

/-- First 16 schedule words of a 64-byte chunk, big-endian. -/
def initW (chunk : List Nat) : List Nat :=
  (List.range 16).map fun i =>
    chunk.getD (4 * i) 0 * 16777216 + chunk.getD (4 * i + 1) 0 * 65536 +
    chunk.getD (4 * i + 2) 0 * 256 + chunk.getD (4 * i + 3) 0

/-- Extend the schedule to 64 words. -/
def extendW (w0 : List Nat) : List Nat :=
  (List.range 48).foldl
    (fun w _ =>
      let n := w.length
      let s0 := smallSigma0 (w.getD (n - 15) 0)
      let s1 := smallSigma1 (w.getD (n - 2) 0)
      w ++ [(w.getD (n - 16) 0 + s0 + w.getD (n - 7) 0 + s1) % M32])
    w0

/-- One round of the SHA-256 compression function. -/
def shaRound (st : Nat × Nat × Nat × Nat × Nat × Nat × Nat × Nat) (kw : Nat × Nat) :
    Nat × Nat × Nat × Nat × Nat × Nat × Nat × Nat :=
  let (a, b, c, d, e, f, g, h) := st
  let t1 := (h + bigSigma1 e + shaCh e f g + kw.2 + kw.1) % M32
  let t2 := (bigSigma0 a + shaMaj a b c) % M32
  ((t1 + t2) % M32, a, b, c, (d + t1) % M32, e, f, g)

/-- Process one 64-byte chunk, updating the 8-word hash state. -/
def compressChunk (hs : List Nat) (chunk : List Nat) : List Nat :=
  let w := extendW (initW chunk)
  let init := (hs.getD 0 0, hs.getD 1 0, hs.getD 2 0, hs.getD 3 0,
               hs.getD 4 0, hs.getD 5 0, hs.getD 6 0, hs.getD 7 0)
  let (a, b, c, d, e, f, g, h) := (w.zip K256).foldl shaRound init
  [(hs.getD 0 0 + a) % M32, (hs.getD 1 0 + b) % M32, (hs.getD 2 0 + c) % M32,
   (hs.getD 3 0 + d) % M32, (hs.getD 4 0 + e) % M32, (hs.getD 5 0 + f) % M32,
   (hs.getD 6 0 + g) % M32, (hs.getD 7 0 + h) % M32]

/-- SHA-256 digest (32 bytes) of a byte list. -/
def sha256 (msg : List Nat) : List Nat :=
  let final := (chunks64 (sha256Pad msg)).foldl compressChunk H256
  (final.map (beBytes 4)).flatten

/-- Lowercase hex digit. -/
def hexDigit (n : Nat) : Char :=
  if n < 10 then Char.ofNat (48 + n) else Char.ofNat (87 + n)

/-- Lowercase hex encoding of bytes, as Go's `%x` verb prints them. -/
def hexEncode (bytes : List Nat) : String :=
  String.mk ((bytes.map fun b => [hexDigit (b / 16), hexDigit (b % 16)]).flatten)

/-! ## analyzer types (internal/analyzer: Severity, FindingType, Finding) -/

/-- Go `type Severity string`. -/
abbrev Severity := String

def SeverityHigh : Severity := "high"

def SeverityMedium : Severity := "medium"

def SeverityLow : Severity := "low"

def SeverityInfo : Severity := "info"

/-- Go `type FindingType string`. -/
abbrev FindingType := String

def FindingUnusedTable : FindingType := "UNUSED_TABLE"

def FindingUnusedIndex : FindingType := "UNUSED_INDEX"

def FindingBloatedIndex : FindingType := "BLOATED_INDEX"

def FindingMissingVacuum : FindingType := "MISSING_VACUUM"

def FindingNoPrimaryKey : FindingType := "NO_PRIMARY_KEY"

def FindingDuplicateIndex : FindingType := "DUPLICATE_INDEX"

def FindingMissingTable : FindingType := "MISSING_TABLE"

def FindingMissingColumn : FindingType := "MISSING_COLUMN"

def FindingUnreferencedTable : FindingType := "UNREFERENCED_TABLE"

def FindingCodeMatch : FindingType := "CODE_MATCH"

def FindingUnindexedQuery : FindingType := "UNINDEXED_QUERY"

/-- analyzer.Finding.  The Go field `Type` is spelled `Type'` because `Type`
is a Lean keyword; `Detail` (a Go `map[string]string`) is a key-value list. -/
structure Finding where
  Type' : FindingType
  Severity : Severity
  Schema : String
  Table : String
  Column : String
  Index : String
  Message : String
  Detail : List (String × String)
deriving DecidableEq, Repr

/-- A Finding with all fields empty, mirroring Go's zero value. -/
def Finding.zero : Finding := ⟨"", "", "", "", "", "", "", []⟩

/-! ## package baseline: Fingerprint, Save, Load, Contains, Filter -/

/-- The `fmt.Sprintf` key inside baseline.Fingerprint:
`"%s|%s|%s|%s|%s"` over (Type, Schema, Table, Column, Index). -/
def fingerprintKey (f : Finding) : String :=
  f.Type' ++ "|" ++ f.Schema ++ "|" ++ f.Table ++ "|" ++ f.Column ++ "|" ++ f.Index

/-- Hex of the first 16 bytes of the SHA-256 of a string (`h := sha256.Sum256([]byte(key)); %x of h[:16]`). -/
def fingerprintHex (key : String) : String :=
  hexEncode ((sha256 (utf8Bytes key)).take 16)

/-- baseline.Fingerprint: stable identifier of a finding. -/
def Fingerprint (f : Finding) : String :=
  fingerprintHex (fingerprintKey f)

/-- baseline.Baseline.  The derived `set` is membership in `Fingerprints`. -/
structure Baseline where
  Fingerprints : List String
deriving DecidableEq, Repr

/-- baseline.Load.  The file is modelled as its decoded fingerprint list
(`none` = the file does not exist; JSON decode errors are out of scope of the
claims and not modelled).  A missing file yields an empty baseline and no error. -/
def LoadBaseline (file : Option (List String)) : Except String Baseline :=
  match file with
  | none => .ok ⟨[]⟩
  | some fps => .ok ⟨fps⟩

/-- The dedup loop in baseline.Save: keep the first occurrence of each
fingerprint, in order (`seen` map modelled by the accumulator itself). -/
def dedupFirst : List String → List String → List String
  | [], _ => []
  | x :: rest, seen =>
    if seen.contains x then dedupFirst rest seen
    else x :: dedupFirst rest (x :: seen)

/-- baseline.Save: the fingerprint list written to disk — first-occurrence
dedup of the findings' fingerprints, then `sort.Strings` (ascending). -/
def SaveBaseline (findings : List Finding) : List String :=
  (dedupFirst (findings.map Fingerprint) []).insertionSort (· ≤ ·)

/-- baseline.(*Baseline).Contains. -/
def Baseline.ContainsF (b : Baseline) (f : Finding) : Bool :=
  b.Fingerprints.contains (Fingerprint f)

/-- The suppression loop inside baseline.Filter. -/
def filterLoop (b : Baseline) : List Finding → List Finding × Nat
  | [] => ([], 0)
  | f :: rest =>
    let (fs, n) := filterLoop b rest
    if b.ContainsF f then (fs, n + 1) else (f :: fs, n)

/-- baseline.(*Baseline).Filter: drop baselined findings, count suppressions.
`len(b.set) == 0` holds exactly when the fingerprint list is empty. -/
def Baseline.Filter (b : Baseline) (findings : List Finding) : List Finding × Nat :=
  if b.Fingerprints.isEmpty then (findings, 0)
  else filterLoop b findings

/-! ## Claim C1: fingerprint stability -/

/-- The five identity-bearing fields of a finding, in fingerprint order. -/
def identityFields (f : Finding) : List String :=
  [f.Type', f.Schema, f.Table, f.Column, f.Index]

/-- A string that avoids the fingerprint key separator. -/
def pipeFree (s : String) : Prop := '|' ∉ s.data

instance (s : String) : Decidable (pipeFree s) := by
  unfold pipeFree; infer_instance

theorem append_pipe_inj : ∀ {x₁ x₂ r₁ r₂ : List Char}, '|' ∉ x₁ → '|' ∉ x₂ →
    x₁ ++ '|' :: r₁ = x₂ ++ '|' :: r₂ → x₁ = x₂ ∧ r₁ = r₂ := by
  intro x₁
  induction x₁ with
  | nil =>
    intro x₂ r₁ r₂ _ h₂ h
    cases x₂ with
    | nil => simpa using h
    | cons c t =>
      simp only [List.nil_append, List.cons_append, List.cons.injEq] at h
      exact absurd (h.1 ▸ List.mem_cons_self c t) h₂
  | cons c t ih =>
    intro x₂ r₁ r₂ h₁ h₂ h
    cases x₂ with
    | nil =>
      simp only [List.cons_append, List.nil_append, List.cons.injEq] at h
      exact absurd (h.1 ▸ List.mem_cons_self c t) h₁
    | cons c' t' =>
      simp only [List.cons_append, List.cons.injEq] at h
      have ht := ih (fun hm => h₁ (List.mem_cons_of_mem c hm))
        (fun hm => h₂ (List.mem_cons_of_mem c' hm)) h.2
      exact ⟨by rw [h.1, ht.1], ht.2⟩

theorem fingerprintKey_data (f : Finding) :
    (fingerprintKey f).data =
      f.Type'.data ++ '|' :: (f.Schema.data ++ '|' :: (f.Table.data ++ '|' ::
        (f.Column.data ++ '|' :: f.Index.data))) := by
  simp [fingerprintKey, String.data_append]

theorem fingerprintKey_inj (f g : Finding)
    (hp : ∀ s ∈ identityFields f ++ identityFields g, pipeFree s)
    (h : fingerprintKey f = fingerprintKey g) :
    f.Type' = g.Type' ∧ f.Schema = g.Schema ∧ f.Table = g.Table ∧
      f.Column = g.Column ∧ f.Index = g.Index := by
  have hd := congrArg String.data h
  rw [fingerprintKey_data, fingerprintKey_data] at hd
  simp only [identityFields, List.mem_append, List.mem_cons, List.mem_singleton,
    List.not_mem_nil, pipeFree] at hp
  have p1 := append_pipe_inj (hp f.Type' (by tauto)) (hp g.Type' (by tauto)) hd
  have p2 := append_pipe_inj (hp f.Schema (by tauto)) (hp g.Schema (by tauto)) p1.2
  have p3 := append_pipe_inj (hp f.Table (by tauto)) (hp g.Table (by tauto)) p2.2
  have p4 := append_pipe_inj (hp f.Column (by tauto)) (hp g.Column (by tauto)) p3.2
  exact ⟨String.ext p1.1, String.ext p2.1, String.ext p3.1, String.ext p4.1,
    String.ext p4.2⟩

/-- C1 (amended). If two findings agree on (type, schema, table, column,
index) their fingerprints are equal; severity, message and detail never
influence the fingerprint; the fingerprint is the hex encoding of the first
16 bytes of the SHA-256 of `"{type}|{schema}|{table}|{column}|{index}"`; and
two findings that disagree on at least one of the five fields have distinct
SHA-256 input keys, provided none of the fields contains the separator
character `|` (distinct keys yield distinct fingerprints except for a
SHA-256 truncated-hash collision). -/
theorem fingerprint_stability (f g : Finding) :
    (f.Type' = g.Type' → f.Schema = g.Schema → f.Table = g.Table →
      f.Column = g.Column → f.Index = g.Index → Fingerprint f = Fingerprint g)
    ∧ (∀ sev msg det,
        Fingerprint { f with Severity := sev, Message := msg, Detail := det } = Fingerprint f)
    ∧ Fingerprint f =
        hexEncode ((sha256 (utf8Bytes
          (f.Type' ++ "|" ++ f.Schema ++ "|" ++ f.Table ++ "|" ++ f.Column ++ "|" ++ f.Index))).take 16)
    ∧ ((∀ s ∈ identityFields f ++ identityFields g, pipeFree s) →
        ¬(f.Type' = g.Type' ∧ f.Schema = g.Schema ∧ f.Table = g.Table ∧
          f.Column = g.Column ∧ f.Index = g.Index) →
        fingerprintKey f ≠ fingerprintKey g) := by
  refine ⟨?_, ?_, rfl, ?_⟩
  · intro h1 h2 h3 h4 h5
    unfold Fingerprint fingerprintKey
    rw [h1, h2, h3, h4, h5]
  · intro sev msg det
    rfl
  · intro hp hne h
    exact hne (fingerprintKey_inj f g hp h)

/-- C1 witness: the amended claim applied at concrete findings — two findings
agreeing on the identity fields share a fingerprint, and two pipe-free
findings disagreeing on the index have distinct keys. -/
theorem fingerprint_stability_witness :
    Fingerprint ⟨"UNUSED_INDEX", "medium", "public", "users", "", "idx_a", "m1", []⟩ =
      Fingerprint ⟨"UNUSED_INDEX", "low", "public", "users", "", "idx_a", "m2", [("k", "v")]⟩
    ∧ fingerprintKey ⟨"UNUSED_INDEX", "medium", "public", "users", "", "idx_a", "m1", []⟩ ≠
        fingerprintKey ⟨"UNUSED_INDEX", "medium", "public", "users", "", "idx_b", "m1", []⟩ := by
  constructor
  · exact (fingerprint_stability
      ⟨"UNUSED_INDEX", "medium", "public", "users", "", "idx_a", "m1", []⟩
      ⟨"UNUSED_INDEX", "low", "public", "users", "", "idx_a", "m2", [("k", "v")]⟩).1
      rfl rfl rfl rfl rfl
  · exact (fingerprint_stability
      ⟨"UNUSED_INDEX", "medium", "public", "users", "", "idx_a", "m1", []⟩
      ⟨"UNUSED_INDEX", "medium", "public", "users", "", "idx_b", "m1", []⟩).2.2.2
      (by decide) (by decide)

/-- C1 counterexample: the claim's distinctness clause is false — these two
findings disagree on schema and table, yet the `|`-joined keys coincide
(`"T|a|b|c||"`), so the fingerprints are equal. -/
theorem fingerprint_distinctness_counterexample :
    (⟨"T", "high", "a|b", "c", "", "", "m1", []⟩ : Finding).Schema ≠
      (⟨"T", "low", "a", "b|c", "", "", "m2", []⟩ : Finding).Schema
    ∧ (⟨"T", "high", "a|b", "c", "", "", "m1", []⟩ : Finding).Table ≠
        (⟨"T", "low", "a", "b|c", "", "", "m2", []⟩ : Finding).Table
    ∧ Fingerprint ⟨"T", "high", "a|b", "c", "", "", "m1", []⟩ =
        Fingerprint ⟨"T", "low", "a", "b|c", "", "", "m2", []⟩ := by
  refine ⟨by decide, by decide, ?_⟩
  exact congrArg fingerprintHex (by decide :
    fingerprintKey ⟨"T", "high", "a|b", "c", "", "", "m1", []⟩ =
      fingerprintKey ⟨"T", "low", "a", "b|c", "", "", "m2", []⟩)

/-! ## Claims C2 and C9: baseline round-trip and missing baseline file -/

theorem contains_mem (l : List String) (a : String) : l.contains a = true ↔ a ∈ l := by
  simp

theorem dedupFirst_mem : ∀ {l seen : List String} {a : String}, a ∈ l →
    a ∈ dedupFirst l seen ∨ a ∈ seen := by
  intro l
  induction l with
  | nil => intro seen a ha; cases ha
  | cons x rest ih =>
    intro seen a ha
    by_cases hx : seen.contains x = true
    · rw [contains_mem] at hx
      rcases List.mem_cons.mp ha with rfl | hr
      · exact .inr hx
      · simpa [dedupFirst, contains_mem, hx] using ih hr
    · have hx' : x ∉ seen := by
        simpa using hx
      rcases List.mem_cons.mp ha with rfl | hr
      · left; simp [dedupFirst, contains_mem, hx']
      · rcases @ih (x :: seen) a hr with h | h
        · left; simp [dedupFirst, contains_mem, hx']
          exact .inr h
        · rcases List.mem_cons.mp h with rfl | h
          · left; simp [dedupFirst, contains_mem, hx']
          · exact .inr h

theorem dedupFirst_nodup : ∀ (l seen : List String),
    (dedupFirst l seen).Nodup ∧ ∀ a ∈ dedupFirst l seen, a ∉ seen := by
  intro l
  induction l with
  | nil => intro seen; exact ⟨List.nodup_nil, by intro a ha; cases ha⟩
  | cons x rest ih =>
    intro seen
    by_cases hx : x ∈ seen
    · have : dedupFirst (x :: rest) seen = dedupFirst rest seen := by
        simp [dedupFirst, contains_mem, hx]
      rw [this]; exact ih seen
    · have heq : dedupFirst (x :: rest) seen = x :: dedupFirst rest (x :: seen) := by
        simp [dedupFirst, contains_mem, hx]
      rw [heq]
      have ihx := ih (x :: seen)
      constructor
      · refine List.nodup_cons.mpr ⟨fun hmem => ?_, ihx.1⟩
        exact (ihx.2 x hmem) (List.mem_cons_self x seen)
      · intro a ha
        rcases List.mem_cons.mp ha with rfl | ha'
        · exact hx
        · exact fun hs => (ihx.2 a ha') (List.mem_cons_of_mem x hs)

theorem filterLoop_all_suppressed (b : Baseline) : ∀ (F : List Finding),
    (∀ f ∈ F, b.ContainsF f = true) → filterLoop b F = ([], F.length) := by
  intro F
  induction F with
  | nil => intro _; rfl
  | cons f rest ih =>
    intro hall
    have hr := ih fun g hg => hall g (List.mem_cons_of_mem f hg)
    simp [filterLoop, hr, hall f (List.mem_cons_self f rest)]

theorem saveBaseline_mem {F : List Finding} {f : Finding} (hf : f ∈ F) :
    Fingerprint f ∈ SaveBaseline F := by
  have h1 : Fingerprint f ∈ dedupFirst (F.map Fingerprint) [] := by
    rcases dedupFirst_mem (List.mem_map_of_mem Fingerprint hf) with h | h
    · exact h
    · cases h
  exact ((List.perm_insertionSort (· ≤ ·) _).mem_iff).mpr h1

/-- C2. Saving any finding list and loading the result yields a baseline that
suppresses every finding of the list: `Filter` returns the empty list and a
suppressed count equal to the list's length.  The fingerprint list written by
`Save` is duplicate-free and sorted ascending. -/
theorem baseline_roundtrip (F : List Finding) :
    LoadBaseline (some (SaveBaseline F)) = .ok ⟨SaveBaseline F⟩
    ∧ (Baseline.mk (SaveBaseline F)).Filter F = ([], F.length)
    ∧ (SaveBaseline F).Sorted (· ≤ ·)
    ∧ (SaveBaseline F).Nodup := by
  refine ⟨rfl, ?_, List.sorted_insertionSort _ _, ?_⟩
  · cases F with
    | nil => rfl
    | cons f rest =>
      have hne : (SaveBaseline (f :: rest)).isEmpty = false := by
        have := saveBaseline_mem (List.mem_cons_self f rest)
        cases h : SaveBaseline (f :: rest) with
        | nil => rw [h] at this; cases this
        | cons a l => rfl
      have hall : ∀ g ∈ f :: rest,
          (Baseline.mk (SaveBaseline (f :: rest))).ContainsF g = true := by
        intro g hg
        simpa [Baseline.ContainsF, contains_mem] using saveBaseline_mem hg
      simp only [Baseline.Filter, hne, Bool.false_eq_true, if_false]
      exact filterLoop_all_suppressed _ _ hall
  · exact ((List.perm_insertionSort (· ≤ ·) _).nodup_iff).mpr (dedupFirst_nodup _ []).1

/-- C9. Loading a baseline from a path that does not exist yields an empty
baseline and no error, and filtering any finding list through that empty
baseline returns the list unchanged with a suppressed count of zero. -/
theorem load_missing_baseline (F : List Finding) :
    LoadBaseline none = .ok ⟨[]⟩
    ∧ (Baseline.mk []).Filter F = (F, 0) :=
  ⟨rfl, rfl⟩

/-! ## Go strings helpers (strings.ToLower/ToUpper/TrimSpace/Split, ASCII case) -/

def lowerChar (c : Char) : Char :=
  if 'A' ≤ c ∧ c ≤ 'Z' then Char.ofNat (c.toNat + 32) else c

def upperChar (c : Char) : Char :=
  if 'a' ≤ c ∧ c ≤ 'z' then Char.ofNat (c.toNat - 32) else c

/-- strings.ToLower (ASCII range; the repository's identifiers are ASCII). -/
def lowerStr (s : String) : String := String.mk (s.data.map lowerChar)

/-- strings.ToUpper (ASCII range). -/
def upperStr (s : String) : String := String.mk (s.data.map upperChar)

def isSpaceChar (c : Char) : Bool :=
  c = ' ' ∨ c = '\t' ∨ c = '\n' ∨ c = '\r'

/-- strings.TrimSpace. -/
def trimStr (s : String) : String :=
  String.mk (((s.data.dropWhile isSpaceChar).reverse.dropWhile isSpaceChar).reverse)

def splitCharAux (sep : Char) : List Char → List Char → List String
  | [], cur => [String.mk cur.reverse]
  | c :: rest, cur =>
    if c = sep then String.mk cur.reverse :: splitCharAux sep rest []
    else splitCharAux sep rest (c :: cur)

/-- strings.Split with a one-character separator. -/
def splitStr (sep : Char) (s : String) : List String :=
  splitCharAux sep s.data []

/-! ## Claim C3: severity aggregation, exit codes and --fail-on (analyzer + cli) -/

/-- analyzer.severityOrder (Go map lookup; absent keys give 0). -/
def severityOrder (s : Severity) : Nat :=
  if s = SeverityInfo then 0
  else if s = SeverityLow then 1
  else if s = SeverityMedium then 2
  else if s = SeverityHigh then 3
  else 0

/-- analyzer.MaxSeverity: highest severity among findings, `info` for none. -/
def MaxSeverity (findings : List Finding) : Severity :=
  findings.foldl
    (fun mx f => if severityOrder f.Severity > severityOrder mx then f.Severity else mx)
    SeverityInfo

/-- analyzer.ExitCode: high → 2, medium → 1, else 0. -/
def ExitCode (s : Severity) : Nat :=
  if s = SeverityHigh then 2
  else if s = SeverityMedium then 1
  else 0

/-- cli.canonicalFindingType: trim, uppercase, map the SCHEMA_DRIFT alias. -/
def canonicalFindingType (t : String) : String :=
  let t := upperStr (trimStr t)
  if t = "" then ""
  else if t = "SCHEMA_DRIFT" then FindingMissingColumn
  else t

/-- The parsing loop of cli.shouldFailOn: split the --fail-on list on commas
and sort entries into (severities, types); Go's two maps become two lists. -/
def parseFailOn (failOn : String) : List String × List String :=
  (splitStr ',' failOn).foldl
    (fun acc p =>
      let p := trimStr p
      if p = "" then acc
      else
        let lower := lowerStr p
        if lower = "high" ∨ lower = "medium" ∨ lower = "low" ∨ lower = "info" then
          (acc.1 ++ [lower], acc.2)
        else
          let t := canonicalFindingType p
          if t = "" then acc else (acc.1, acc.2 ++ [t]))
    ([], [])

/-- cli.shouldFailOn: true when some finding's type or severity matches a
parsed --fail-on entry. -/
def shouldFailOn (findings : List Finding) (failOn : String) : Bool :=
  let (severities, types) := parseFailOn failOn
  findings.any fun f => types.contains f.Type' || severities.contains f.Severity

/-- The exit-code computation in the cli commands: `--fail-on` match forces 2,
otherwise the max-severity mapping decides. -/
def auditExitCode (findings : List Finding) (failOn : String) : Nat :=
  if (!(failOn == "")) && shouldFailOn findings failOn then 2
  else ExitCode (MaxSeverity findings)

/-- C3. The exit code is 2 when the maximum severity is high, 1 when it is
medium and 0 otherwise; the maximum severity of an empty list is info (exit
0); and with a --fail-on list, any surviving finding whose type or severity
matches a parsed entry forces exit code 2. -/
theorem exit_code_contract (F : List Finding) (failOn : String) :
    MaxSeverity [] = SeverityInfo
    ∧ (ExitCode SeverityHigh = 2 ∧ ExitCode SeverityMedium = 1 ∧
        ExitCode SeverityLow = 0 ∧ ExitCode SeverityInfo = 0)
    ∧ (failOn = "" → auditExitCode F failOn = ExitCode (MaxSeverity F))
    ∧ (shouldFailOn F failOn = false → auditExitCode F failOn = ExitCode (MaxSeverity F))
    ∧ (failOn ≠ "" → shouldFailOn F failOn = true → auditExitCode F failOn = 2)
    ∧ (failOn ≠ "" →
        (∃ f ∈ F, (parseFailOn failOn).2.contains f.Type' = true ∨
          (parseFailOn failOn).1.contains f.Severity = true) →
        auditExitCode F failOn = 2) := by
  refine ⟨rfl, ⟨rfl, rfl, rfl, rfl⟩, ?_, ?_, ?_, ?_⟩
  · intro h; simp [auditExitCode, h]
  · intro h; simp [auditExitCode, h]
  · intro h1 h2
    simp [auditExitCode, h2, h1]
  · intro h1 h2
    have hs : shouldFailOn F failOn = true := by
      rcases h2 with ⟨f, hf, hmatch⟩
      unfold shouldFailOn
      rw [List.any_eq_true]
      refine ⟨f, hf, ?_⟩
      rcases hmatch with h | h
      · rw [contains_mem] at h; simp [h]
      · rw [contains_mem] at h; simp [h]
    simp [auditExitCode, hs, h1]

/-- C3 witness: concrete findings — a medium finding exits 1 without
--fail-on, and `--fail-on MISSING_COLUMN` on a medium MISSING_COLUMN finding
forces exit 2. -/
theorem exit_code_contract_witness :
    auditExitCode [⟨"MISSING_COLUMN", "medium", "public", "users", "email", "", "m", []⟩] "" = 1
    ∧ auditExitCode [⟨"MISSING_COLUMN", "medium", "public", "users", "email", "", "m", []⟩]
        "MISSING_COLUMN" = 2 := by
  constructor
  · have h := (exit_code_contract
      [⟨"MISSING_COLUMN", "medium", "public", "users", "email", "", "m", []⟩] "").2.2.1 rfl
    rw [h]; decide
  · exact (exit_code_contract
      [⟨"MISSING_COLUMN", "medium", "public", "users", "email", "", "m", []⟩]
      "MISSING_COLUMN").2.2.2.2.2 (by decide)
      ⟨_, List.mem_cons_self _ _, .inl (by decide)⟩

/-! ## scanner types and the repository walker (internal/scanner) -/

/-- Go `type PatternType string`. -/
abbrev PatternType := String

def PatternSQL : PatternType := "sql"

def PatternORM : PatternType := "orm"

def PatternMigration : PatternType := "migration"

/-- Go `type Context string`. -/
abbrev Context := String

def ContextSelect : Context := "SELECT"

def ContextInsert : Context := "INSERT"

def ContextUpdate : Context := "UPDATE"

def ContextDelete : Context := "DELETE"

def ContextDDL : Context := "DDL"

def ContextUnknown : Context := "UNKNOWN"

/-- Modelled from the spec: scanner context `WHERE` — the scanner/types.go
revision declaring `ContextWhere` is not under src (the analyzer references
`scanner.ContextWhere`; the spec lists context value `WHERE`). -/
def ContextWhere : Context := "WHERE"

/-- Modelled from the spec: scanner context `ORDER_BY` — the scanner/types.go
revision declaring `ContextOrderBy` is not under src (the analyzer references
`scanner.ContextOrderBy`; the spec lists context value `ORDER_BY`). -/
def ContextOrderBy : Context := "ORDER_BY"

/-- scanner.TableRef (the `Suppressed` flag is omitted: no embedded code reads it). -/
structure TableRef where
  Table : String
  Schema : String
  File : String
  Line : Nat
  Pattern : PatternType
  Context : Context
deriving DecidableEq, Repr

/-- scanner.ColumnRef. -/
structure ColumnRef where
  Table : String
  Column : String
  Schema : String
  File : String
  Line : Nat
  Context : Context
deriving DecidableEq, Repr

/-- scanner.ScanResult. -/
structure ScanResult where
  RepoPath : String
  Refs : List TableRef
  ColumnRefs : List ColumnRef
  Tables : List String
  Columns : List String
  FilesScanned : Nat
  FilesSkipped : Nat
deriving DecidableEq, Repr

/-- scanner.uniqueTables: sorted distinct lowercased table names (Go collects
the keys of a `seen` map and sorts them; first-occurrence dedup then sort
yields the same sorted set). -/
def uniqueTables (refs : List TableRef) : List String :=
  (dedupFirst (refs.map fun r => lowerStr r.Table) []).insertionSort (· ≤ ·)

/-- scanner.uniqueColumns: sorted distinct lowercased `table.column` keys. -/
def uniqueColumns (refs : List ColumnRef) : List String :=
  (dedupFirst (refs.map fun r => lowerStr r.Table ++ "." ++ lowerStr r.Column) [])
    |>.insertionSort (· ≤ ·)

/-- filepath.Ext: scan the path from the right; stop at a path separator. -/
def extRev : List Char → List Char → String
  | [], _ => ""
  | c :: rest, acc =>
    if c = '/' then ""
    else if c = '.' then String.mk ('.' :: acc)
    else extRev rest (c :: acc)

def fileExt (p : String) : String := extRev p.data.reverse []

/-- scanner.supportedExtensions. -/
def supportedExtensions (e : String) : Bool :=
  [".go", ".py", ".js", ".ts", ".jsx", ".tsx", ".java", ".rb", ".sql", ".rs",
    ".prisma"].contains e

/-- One file of a source tree.  The walk order (with the skipDirs pruning,
identical in both traversal modes) is abstracted as a list; `content` is
whatever the per-file scanner consumes. -/
structure FileEntry (σ : Type) where
  path : String
  content : σ
deriving DecidableEq, Repr

/-- The extension filter applied to each walked file. -/
def isSupported {σ : Type} (f : FileEntry σ) : Bool :=
  supportedExtensions (lowerStr (fileExt f.path))

/-- The sequential walk loop of scanner.Scan: accumulate refs, column refs
and the scanned/skipped counters in walk order.  The per-file scanner
(scanner.scanFile) is a parameter: the determinism contract holds for every
per-file scanner. -/
def scanFiles {σ : Type} (scanFile : FileEntry σ → List TableRef × List ColumnRef) :
    List (FileEntry σ) → List TableRef × List ColumnRef × Nat × Nat
  | [] => ([], [], 0, 0)
  | f :: rest =>
    let (rs, cs, sc, sk) := scanFiles scanFile rest
    if isSupported f then ((scanFile f).1 ++ rs, (scanFile f).2 ++ cs, sc + 1, sk)
    else (rs, cs, sc, sk + 1)

/-- scanner.Scan. -/
def Scan {σ : Type} (scanFile : FileEntry σ → List TableRef × List ColumnRef)
    (repoPath : String) (files : List (FileEntry σ)) : ScanResult :=
  let (rs, cs, sc, sk) := scanFiles scanFile files
  { RepoPath := repoPath, Refs := rs, ColumnRefs := cs,
    Tables := uniqueTables rs, Columns := uniqueColumns cs,
    FilesScanned := sc, FilesSkipped := sk }

/-- scanner.ScanParallel.  `workers = 1` falls back to Scan.  Otherwise
phase 1 collects supported paths and counts skipped files, phase 2 hands the
paths to workers, and phase 3 merges per-file results in channel-arrival
order; the nondeterministic arrival order is the explicit `arrival`
argument, constrained (in the theorems) to be a permutation of the per-file
results of the supported files. -/
def ScanParallel {σ : Type} (scanFile : FileEntry σ → List TableRef × List ColumnRef)
    (repoPath : String) (files : List (FileEntry σ)) (workers : Nat)
    (arrival : List (List TableRef × List ColumnRef)) : ScanResult :=
  if workers = 1 then Scan scanFile repoPath files
  else
    let skipped := (files.filter fun f => !(isSupported f)).length
    let refs := (arrival.map Prod.fst).flatten
    let colRefs := (arrival.map Prod.snd).flatten
    { RepoPath := repoPath, Refs := refs, ColumnRefs := colRefs,
      Tables := uniqueTables refs, Columns := uniqueColumns colRefs,
      FilesScanned := arrival.length, FilesSkipped := skipped }

/-! ## Claim C4: parallel/sequential scan determinism -/

theorem perm_flatten {α : Type} {l₁ l₂ : List (List α)} (h : l₁.Perm l₂) :
    l₁.flatten.Perm l₂.flatten := by
  induction h with
  | nil => rfl
  | cons x _ ih => simpa [List.flatten_cons] using ih.append_left x
  | swap x y l =>
    simp only [List.flatten_cons, ← List.append_assoc]
    exact List.Perm.append_right _ List.perm_append_comm
  | trans _ _ ih₁ ih₂ => exact ih₁.trans ih₂

theorem dedupFirst_subset : ∀ {l seen : List String} {a : String},
    a ∈ dedupFirst l seen → a ∈ l := by
  intro l
  induction l with
  | nil => intro seen a ha; cases ha
  | cons x rest ih =>
    intro seen a ha
    by_cases hx : seen.contains x = true
    · rw [show dedupFirst (x :: rest) seen = dedupFirst rest seen by
        simp only [dedupFirst]; rw [if_pos hx]] at ha
      exact List.mem_cons_of_mem x (ih ha)
    · rw [show dedupFirst (x :: rest) seen = x :: dedupFirst rest (x :: seen) by
        simp only [dedupFirst]; rw [if_neg hx]] at ha
      rcases List.mem_cons.mp ha with rfl | h
      · exact List.mem_cons_self a rest
      · exact List.mem_cons_of_mem x (ih h)

theorem mem_dedupFirst_nil {l : List String} {a : String} :
    a ∈ dedupFirst l [] ↔ a ∈ l := by
  constructor
  · exact dedupFirst_subset
  · intro h
    rcases dedupFirst_mem h with h' | h'
    · exact h'
    · cases h'

/-- Sorted first-occurrence dedup is invariant under permutation of the input. -/
theorem sortedDedup_perm_eq {l₁ l₂ : List String} (h : l₁.Perm l₂) :
    (dedupFirst l₁ []).insertionSort (· ≤ ·) =
      (dedupFirst l₂ []).insertionSort (· ≤ ·) := by
  have hperm : (dedupFirst l₁ []).Perm (dedupFirst l₂ []) := by
    rw [List.perm_ext_iff_of_nodup (dedupFirst_nodup l₁ []).1 (dedupFirst_nodup l₂ []).1]
    intro a
    rw [mem_dedupFirst_nil, mem_dedupFirst_nil]
    exact h.mem_iff
  refine List.eq_of_perm_of_sorted ?_ (List.sorted_insertionSort _ _)
    (List.sorted_insertionSort _ _)
  exact ((List.perm_insertionSort _ _).trans hperm).trans
    (List.perm_insertionSort _ _).symm

theorem uniqueTables_perm {r₁ r₂ : List TableRef} (h : r₁.Perm r₂) :
    uniqueTables r₁ = uniqueTables r₂ :=
  sortedDedup_perm_eq (h.map _)

theorem uniqueColumns_perm {r₁ r₂ : List ColumnRef} (h : r₁.Perm r₂) :
    uniqueColumns r₁ = uniqueColumns r₂ :=
  sortedDedup_perm_eq (h.map _)

theorem scanFiles_spec {σ : Type} (scanFile : FileEntry σ → List TableRef × List ColumnRef) :
    ∀ files : List (FileEntry σ),
    scanFiles scanFile files =
      (((files.filter fun f => isSupported f).map fun f => (scanFile f).1).flatten,
       ((files.filter fun f => isSupported f).map fun f => (scanFile f).2).flatten,
       (files.filter fun f => isSupported f).length,
       (files.filter fun f => !(isSupported f)).length) := by
  intro files
  induction files with
  | nil => rfl
  | cons f rest ih =>
    by_cases hf : isSupported f = true
    · simp [scanFiles, ih, hf, List.filter_cons]
    · simp only [Bool.not_eq_true] at hf
      simp [scanFiles, ih, hf, List.filter_cons]

/-- C4.  For every per-file scanner, source tree and worker count n ≥ 1,
and every arrival order of the parallel workers' per-file results,
ScanParallel and the sequential Scan agree on the sorted Tables and Columns
sets and on the FilesScanned and FilesSkipped counters (only the ordering
of Refs may differ). -/
theorem scanParallel_deterministic {σ : Type}
    (scanFile : FileEntry σ → List TableRef × List ColumnRef)
    (repoPath : String) (files : List (FileEntry σ)) (n : Nat)
    (arrival : List (List TableRef × List ColumnRef))
    (hn : 1 ≤ n)
    (harr : arrival.Perm ((files.filter fun f => isSupported f).map scanFile)) :
    (ScanParallel scanFile repoPath files n arrival).Tables =
        (Scan scanFile repoPath files).Tables
    ∧ (ScanParallel scanFile repoPath files n arrival).Columns =
        (Scan scanFile repoPath files).Columns
    ∧ (ScanParallel scanFile repoPath files n arrival).FilesScanned =
        (Scan scanFile repoPath files).FilesScanned
    ∧ (ScanParallel scanFile repoPath files n arrival).FilesSkipped =
        (Scan scanFile repoPath files).FilesSkipped := by
  by_cases h1 : n = 1
  · simp [ScanParallel, h1]
  · have hrefs : ((arrival.map Prod.fst).flatten).Perm
        (((files.filter fun f => isSupported f).map fun f => (scanFile f).1).flatten) := by
      have := perm_flatten (harr.map Prod.fst)
      rwa [List.map_map] at this
    have hcols : ((arrival.map Prod.snd).flatten).Perm
        (((files.filter fun f => isSupported f).map fun f => (scanFile f).2).flatten) := by
      have := perm_flatten (harr.map Prod.snd)
      rwa [List.map_map] at this
    have hlen : arrival.length = (files.filter fun f => isSupported f).length := by
      simpa using harr.length_eq
    simp only [ScanParallel, h1, if_false, Scan, scanFiles_spec]
    refine ⟨uniqueTables_perm hrefs, uniqueColumns_perm hcols, ?_, ?_⟩
    · simpa using hlen
    · simp

/-- Concrete per-file scanner for the C4 witness. -/
def c4ScanFile (f : FileEntry Nat) : List TableRef × List ColumnRef :=
  if f.content = 0 then
    ([⟨"users", "", f.path, 1, PatternSQL, ContextSelect⟩],
     [⟨"users", "email", "", f.path, 1, ContextWhere⟩])
  else
    ([⟨"orders", "", f.path, 1, PatternSQL, ContextSelect⟩], [])

def c4Files : List (FileEntry Nat) :=
  [⟨"app.go", 0⟩, ⟨"models/app.py", 1⟩, ⟨"README.md", 2⟩]

def c4Arrival : List (List TableRef × List ColumnRef) :=
  [c4ScanFile ⟨"models/app.py", 1⟩, c4ScanFile ⟨"app.go", 0⟩]

/-- C4 witness: a three-file tree (two supported files, one skipped) scanned
with 4 workers whose results arrive in reversed order matches the
sequential scan. -/
theorem scanParallel_deterministic_witness :
    (ScanParallel c4ScanFile "repo" c4Files 4 c4Arrival).Tables =
        (Scan c4ScanFile "repo" c4Files).Tables
    ∧ (ScanParallel c4ScanFile "repo" c4Files 4 c4Arrival).Columns =
        (Scan c4ScanFile "repo" c4Files).Columns
    ∧ (ScanParallel c4ScanFile "repo" c4Files 4 c4Arrival).FilesScanned =
        (Scan c4ScanFile "repo" c4Files).FilesScanned
    ∧ (ScanParallel c4ScanFile "repo" c4Files 4 c4Arrival).FilesSkipped =
        (Scan c4ScanFile "repo" c4Files).FilesSkipped :=
  scanParallel_deterministic c4ScanFile "repo" c4Files 4 c4Arrival
    (by decide) (by decide)

/-! ## Pattern engine column extraction (internal/scanner patterns) -/

/-- scanner.sqlKeywords. -/
def sqlKeywords : List String :=
  ["select", "from", "where", "and", "or",
   "not", "in", "is", "null", "as",
   "on", "set", "values", "into", "join",
   "left", "right", "inner", "outer", "cross",
   "full", "group", "by", "order", "having",
   "limit", "offset", "union", "all", "distinct",
   "case", "when", "then", "else", "end",
   "exists", "between", "like", "true", "false",
   "table", "index", "create", "alter", "drop",
   "insert", "update", "delete", "begin", "commit",
   "rollback", "if", "with", "returning",
   "sqlalchemy", "django", "gorm", "prisma",
   "import", "package", "require", "include"]

/-- scanner.sqlFunctions. -/
def sqlFunctions : List String :=
  ["count", "sum", "avg", "min", "max",
   "coalesce", "nullif", "cast", "extract",
   "lower", "upper", "trim", "length",
   "now", "current_timestamp", "current_date",
   "row_number", "rank", "dense_rank",
   "array_agg", "string_agg", "json_agg",
   "exists", "not", "case"]

/-- scanner.isValidTableName. -/
def isValidTableName (name : String) : Bool :=
  if name.length < 2 ∨ name.length > 120 then false
  else !(sqlKeywords.contains (lowerStr name))

/-- scanner.isValidColumnName. -/
def isValidColumnName (name : String) : Bool :=
  if name.length < 2 ∨ name.length > 120 then false
  else if sqlKeywords.contains (lowerStr name) ∨ sqlFunctions.contains (lowerStr name) then
    false
  else
    match name.data.head? with
    | some c => !('0' ≤ c ∧ c ≤ '9')
    | none => false

/-- scanner.columnMatch. -/
structure columnMatch where
  Table : String
  Column : String
  Schema : String
  Context : Context
deriving DecidableEq, Repr

/-- scanner.extractConditionColumn: the extractor attached to the
`WHERE|AND|OR <col> <op>` column pattern.  `m` is the regex submatch slice;
`m[1]` is the captured column. -/
def extractConditionColumn (m : List String) : List columnMatch :=
  let col := m.getD 1 ""
  if !(isValidColumnName col) then []
  else [{ Table := "", Column := col, Schema := "", Context := ContextSelect }]

/-- scanner.extractByColumn: the extractor attached to the
`ORDER BY <col> / GROUP BY <col>` column pattern. -/
def extractByColumn (m : List String) : List columnMatch :=
  let col := m.getD 1 ""
  if !(isValidColumnName col) then []
  else [{ Table := "", Column := col, Schema := "", Context := ContextSelect }]

/-- analyzer.isIndexableContext: the gate of the unindexed-query detector. -/
def isIndexableContext (ctx : Context) : Bool :=
  ctx = ContextWhere || ctx = ContextOrderBy

/-! ## Claim C5: the contexts attached by the condition and by-column extractors -/

/-- C5 (code bug).  Evaluating the extractors at the failing inputs: the
column match produced for a `WHERE` condition (`WHERE status = ...`,
submatches `["WHERE status =", "status"]`) carries context `SELECT`, not
`WHERE`, and the match produced for `ORDER BY created_at` carries context
`SELECT`, not `ORDER_BY`; `isIndexableContext` rejects `SELECT`, so no
column match produced by these extractors can ever drive the
unindexed-query detector, contradicting the claim, the spec (§4.1) and the
detector's own gate. -/
theorem extract_context_code_bug :
    extractConditionColumn ["WHERE status =", "status"] =
      [{ Table := "", Column := "status", Schema := "", Context := ContextSelect }]
    ∧ extractByColumn ["ORDER BY created_at", "created_at"] =
      [{ Table := "", Column := "created_at", Schema := "", Context := ContextSelect }]
    ∧ ContextSelect ≠ ContextWhere
    ∧ ContextSelect ≠ ContextOrderBy
    ∧ isIndexableContext ContextSelect = false
    ∧ isIndexableContext ContextWhere = true
    ∧ isIndexableContext ContextOrderBy = true := by
  refine ⟨?_, ?_, by decide, by decide, by decide, by decide, by decide⟩ <;> decide

/-! ## postgres catalog types (internal/postgres/types.go) -/

/-- postgres.TableInfo (`Type` spelled `Type'`). -/
structure TableInfo where
  Schema : String
  Name : String
  Type' : String
  EstimatedRows : Int
  SizeBytes : Int
deriving DecidableEq, Repr

/-- postgres.ColumnInfo. -/
structure ColumnInfo where
  Schema : String
  Table : String
  Name : String
  OrdinalPosition : Int
  DataType : String
  IsNullable : Bool
deriving DecidableEq, Repr

/-- postgres.IndexInfo. -/
structure IndexInfo where
  Schema : String
  Table : String
  Name : String
  Definition : String
  SizeBytes : Int
  IndexScans : Int
  TupRead : Int
  TupFetch : Int
deriving DecidableEq, Repr

/-- postgres.TableStats (the timestamp and counter fields not read by any
embedded detector are omitted). -/
structure TableStats where
  Schema : String
  Name : String
  SeqScan : Int
  IdxScan : Int
  LiveTuples : Int
  DeadTuples : Int
deriving DecidableEq, Repr

/-- postgres.ConstraintInfo (reduced to the fields the embedded code reads). -/
structure ConstraintInfo where
  Schema : String
  Table : String
  Type' : String
deriving DecidableEq, Repr

/-- postgres.Snapshot. -/
structure Snapshot where
  Tables : List TableInfo
  Columns : List ColumnInfo
  Indexes : List IndexInfo
  Stats : List TableStats
  Constraints : List ConstraintInfo
deriving DecidableEq, Repr

/-! ## Integer formatting (strconv.FormatInt and analyzer.formatBytes) -/

def natDigits : Nat → Nat → List Char
  | 0, _ => []
  | fuel + 1, n =>
    if n < 10 then [Char.ofNat (48 + n)]
    else natDigits fuel (n / 10) ++ [Char.ofNat (48 + n % 10)]

def natToStr (n : Nat) : String := String.mk (natDigits (n + 1) n)

/-- strconv.FormatInt(i, 10). -/
def intToStr (i : Int) : String :=
  if i < 0 then "-" ++ natToStr i.natAbs else natToStr i.natAbs

/-- One-decimal fixed-point of b/div with round half to even, modelling the
`%.1f` float formatting in analyzer.formatBytes (the Go code goes through
float64; the rational rounding below agrees on the values the detectors
handle and keeps the embedding float-free). -/
def roundTenths (b div : Int) : Int :=
  let num := b * 10
  let q := num / div
  let r := num % div
  if 2 * r < div then q
  else if div < 2 * r then q + 1
  else if q % 2 = 0 then q else q + 1

def fmt1 (b div : Int) : String :=
  let t := roundTenths b div
  intToStr (t / 10) ++ "." ++ intToStr (t % 10)

/-- analyzer.formatBytes. -/
def formatBytes (b : Int) : String :=
  if b ≥ 1024 * 1024 * 1024 then fmt1 b (1024 * 1024 * 1024) ++ " GB"
  else if b ≥ 1024 * 1024 then fmt1 b (1024 * 1024) ++ " MB"
  else if b ≥ 1024 then fmt1 b 1024 ++ " KB"
  else intToStr b ++ " bytes"

/-! ## analyzer audit options and the UNUSED_INDEX detector -/

/-- analyzer.tableKey. -/
def tableKey (schema table : String) : String := schema ++ "." ++ table

/-- analyzer.AuditOptions. -/
structure AuditOptions where
  VacuumDays : Int
  UnusedIndexMinBytes : Int
  BloatMinBytes : Int
  ExcludeTables : List String
  ExcludeSchemas : List String
deriving DecidableEq, Repr

/-- Modelled from the spec: analyzer.DefaultAuditOptions.  The types.go
revision carrying `UnusedIndexMinBytes` is not under src (audit.go reads
the field but the in-src struct lacks it); the spec fixes its default at
100 MB.  VacuumDays 30 and BloatMinBytes 1 MB match the in-src revision. -/
def DefaultAuditOptions : AuditOptions :=
  { VacuumDays := 30, UnusedIndexMinBytes := 100 * 1024 * 1024,
    BloatMinBytes := 1024 * 1024, ExcludeTables := [], ExcludeSchemas := [] }

/-- The option-defaulting prologue of analyzer.Audit: a zero or negative
threshold falls back to the default. -/
def resolveAuditOptions (opts : AuditOptions) : AuditOptions :=
  let o1 := if opts.VacuumDays ≤ 0 then
    { opts with VacuumDays := DefaultAuditOptions.VacuumDays } else opts
  let o2 := if o1.UnusedIndexMinBytes ≤ 0 then
    { o1 with UnusedIndexMinBytes := DefaultAuditOptions.UnusedIndexMinBytes } else o1
  if o2.BloatMinBytes ≤ 0 then
    { o2 with BloatMinBytes := DefaultAuditOptions.BloatMinBytes } else o2

/-- The condition in analyzer.detectUnusedIndexes. -/
def unusedIndexPred (minSizeBytes : Int) (idx : IndexInfo) : Bool :=
  idx.IndexScans == 0 && decide (idx.SizeBytes > minSizeBytes)

/-- The finding built by analyzer.detectUnusedIndexes. -/
def mkUnusedIndexFinding (idx : IndexInfo) : Finding :=
  { Type' := FindingUnusedIndex, Severity := SeverityMedium, Schema := idx.Schema,
    Table := idx.Table, Column := "", Index := idx.Name,
    Message := "index \"" ++ idx.Name ++ "\" has never been used (" ++
      formatBytes idx.SizeBytes ++ ")",
    Detail := [("size_bytes", intToStr idx.SizeBytes),
               ("size", formatBytes idx.SizeBytes),
               ("idx_scan", intToStr idx.IndexScans)] }

/-- analyzer.detectUnusedIndexes. -/
def detectUnusedIndexes (indexes : List IndexInfo) (minSizeBytes : Int) : List Finding :=
  match indexes with
  | [] => []
  | idx :: rest =>
    if unusedIndexPred minSizeBytes idx then
      mkUnusedIndexFinding idx :: detectUnusedIndexes rest minSizeBytes
    else detectUnusedIndexes rest minSizeBytes

/-! ## Claim C6: UNUSED_INDEX trigger and default threshold -/

theorem detectUnusedIndexes_eq (minB : Int) : ∀ idxs : List IndexInfo,
    detectUnusedIndexes idxs minB =
      (idxs.filter (unusedIndexPred minB)).map mkUnusedIndexFinding := by
  intro idxs
  induction idxs with
  | nil => rfl
  | cons idx rest ih =>
    by_cases h : unusedIndexPred minB idx = true
    · simp [detectUnusedIndexes, List.filter_cons, h, ih]
    · simp [detectUnusedIndexes, List.filter_cons, h, ih]

/-- C6.  detectUnusedIndexes emits an UNUSED_INDEX finding of severity
medium for an index iff the index's scan counter is zero and its size is
strictly greater than the threshold; Audit's option resolution replaces a
zero-or-unset `unused_index_min_bytes` with the 100 MB default and keeps a
positive one. -/
theorem unused_index_detection (idxs : List IndexInfo) (minB : Int) (opts : AuditOptions) :
    detectUnusedIndexes idxs minB =
      (idxs.filter fun i => i.IndexScans == 0 && decide (i.SizeBytes > minB)).map
        mkUnusedIndexFinding
    ∧ (∀ f ∈ detectUnusedIndexes idxs minB,
        f.Type' = FindingUnusedIndex ∧ f.Severity = SeverityMedium)
    ∧ (∀ i ∈ idxs, i.IndexScans = 0 → i.SizeBytes > minB →
        mkUnusedIndexFinding i ∈ detectUnusedIndexes idxs minB)
    ∧ (∀ f ∈ detectUnusedIndexes idxs minB, ∃ i ∈ idxs,
        f = mkUnusedIndexFinding i ∧ i.IndexScans = 0 ∧ i.SizeBytes > minB)
    ∧ (opts.UnusedIndexMinBytes ≤ 0 →
        (resolveAuditOptions opts).UnusedIndexMinBytes = 100 * 1024 * 1024)
    ∧ (0 < opts.UnusedIndexMinBytes →
        (resolveAuditOptions opts).UnusedIndexMinBytes = opts.UnusedIndexMinBytes) := by
  refine ⟨detectUnusedIndexes_eq minB idxs, ?_, ?_, ?_, ?_, ?_⟩
  · intro f hf
    rw [detectUnusedIndexes_eq] at hf
    rcases List.mem_map.mp hf with ⟨i, _, rfl⟩
    exact ⟨rfl, rfl⟩
  · intro i hi hscan hsize
    rw [detectUnusedIndexes_eq]
    refine List.mem_map_of_mem _ (List.mem_filter.mpr ⟨hi, ?_⟩)
    simp [unusedIndexPred, hscan, hsize]
  · intro f hf
    rw [detectUnusedIndexes_eq] at hf
    rcases List.mem_map.mp hf with ⟨i, hi, rfl⟩
    rcases List.mem_filter.mp hi with ⟨hmem, hpred⟩
    simp only [unusedIndexPred, Bool.and_eq_true, beq_iff_eq, decide_eq_true_eq] at hpred
    exact ⟨i, hmem, rfl, hpred.1, hpred.2⟩
  · intro h
    simp only [resolveAuditOptions]
    split_ifs <;> simp_all [DefaultAuditOptions] <;> omega
  · intro h
    simp only [resolveAuditOptions]
    split_ifs <;> simp_all [DefaultAuditOptions] <;> omega

/-- C6 witness: a never-scanned 200 MB index is flagged against the resolved
default threshold (option 0 resolves to 100 MB); a used index is not. -/
theorem unused_index_detection_witness :
    (resolveAuditOptions ⟨0, 0, 0, [], []⟩).UnusedIndexMinBytes = 100 * 1024 * 1024
    ∧ mkUnusedIndexFinding ⟨"public", "users", "idx_unused", "CREATE INDEX idx_unused ON users (a)",
        200 * 1024 * 1024, 0, 0, 0⟩ ∈
      detectUnusedIndexes [⟨"public", "users", "idx_unused", "CREATE INDEX idx_unused ON users (a)",
        200 * 1024 * 1024, 0, 0, 0⟩] (100 * 1024 * 1024) := by
  constructor
  · exact (unused_index_detection [] 0 ⟨0, 0, 0, [], []⟩).2.2.2.2.1 (by decide)
  · exact (unused_index_detection [⟨"public", "users", "idx_unused",
      "CREATE INDEX idx_unused ON users (a)", 200 * 1024 * 1024, 0, 0, 0⟩]
      (100 * 1024 * 1024) DefaultAuditOptions).2.2.1 _ (List.mem_cons_self _ _)
      rfl (by norm_num)

/-! ## analyzer.normalizeDef and the DUPLICATE_INDEX detector -/

def fieldsAux : List Char → List Char → List String
  | [], cur => if cur.isEmpty then [] else [String.mk cur.reverse]
  | c :: rest, cur =>
    if isSpaceChar c then
      if cur.isEmpty then fieldsAux rest []
      else String.mk cur.reverse :: fieldsAux rest []
    else fieldsAux rest (c :: cur)

/-- strings.Fields: split on whitespace runs. -/
def goFields (s : String) : List String := fieldsAux s.data []

def joinSpace : List String → String
  | [] => ""
  | [x] => x
  | x :: rest => x ++ " " ++ joinSpace rest

/-- First index of `needle` in `hay` (strings.Index on char lists). -/
def indexOfSub (needle : List Char) : List Char → Option Nat
  | [] => if needle.isPrefixOf ([] : List Char) then some 0 else none
  | c :: t =>
    if needle.isPrefixOf (c :: t) then some 0
    else (indexOfSub needle t).map (· + 1)

/-- analyzer.normalizeDef: collapse whitespace runs to single spaces, then
drop everything before the first case-insensitive " ON ". -/
def normalizeDef (d : String) : String :=
  let normalized := joinSpace (goFields d)
  match indexOfSub " ON ".data (upperStr normalized).data with
  | some i => String.mk (normalized.data.drop i)
  | none => normalized

/-- The finding built by analyzer.detectDuplicateIndexes for the pair
(group[i], group[j]), i < j. -/
def mkDuplicateFinding (a b : IndexInfo) : Finding :=
  { Type' := FindingDuplicateIndex, Severity := SeverityLow, Schema := a.Schema,
    Table := a.Table, Column := "", Index := b.Name,
    Message := "index \"" ++ b.Name ++ "\" has the same definition as \"" ++
      a.Name ++ "\"",
    Detail := [] }

/-- The inner j-loop of detectDuplicateIndexes for a fixed i. -/
def dupScanFrom (x : IndexInfo) (rest : List IndexInfo) : List Finding :=
  (rest.filter fun y => normalizeDef y.Definition == normalizeDef x.Definition).map
    (mkDuplicateFinding x)

/-- The nested pair loop of detectDuplicateIndexes over one table's group. -/
def pairFindings : List IndexInfo → List Finding
  | [] => []
  | x :: xs => dupScanFrom x xs ++ pairFindings xs

/-- Go map append-insert: `byTable[key] = append(byTable[key], idx)`,
with the association list keeping first-insertion key order. -/
def insertGroup (k : String) (i : IndexInfo) :
    List (String × List IndexInfo) → List (String × List IndexInfo)
  | [] => [(k, [i])]
  | (k', g) :: rest =>
    if k' = k then (k', g ++ [i]) :: rest
    else (k', g) :: insertGroup k i rest

/-- The grouping loop of detectDuplicateIndexes. -/
def groupByTable (idxs : List IndexInfo) : List (String × List IndexInfo) :=
  idxs.foldl (fun acc i => insertGroup (tableKey i.Schema i.Table) i acc) []

/-- analyzer.detectDuplicateIndexes. -/
def detectDuplicateIndexes (idxs : List IndexInfo) : List Finding :=
  ((groupByTable idxs).map fun g => pairFindings g.2).flatten

/-! ## Claim C7: duplicate-index pair counting -/

theorem groupByTable_single_aux (tk : String) :
    ∀ (l : List IndexInfo) (g : List IndexInfo),
    (∀ i ∈ l, tableKey i.Schema i.Table = tk) →
    l.foldl (fun acc i => insertGroup (tableKey i.Schema i.Table) i acc) [(tk, g)] =
      [(tk, g ++ l)] := by
  intro l
  induction l with
  | nil => intro g _; simp
  | cons i rest ih =>
    intro g hk
    have hki : tableKey i.Schema i.Table = tk := hk i (List.mem_cons_self i rest)
    have : insertGroup (tableKey i.Schema i.Table) i [(tk, g)] = [(tk, g ++ [i])] := by
      simp [insertGroup, hki]
    simp only [List.foldl_cons, this]
    rw [ih (g ++ [i]) fun j hj => hk j (List.mem_cons_of_mem i hj)]
    simp

theorem groupByTable_single (tk : String) (l : List IndexInfo) (hl : l ≠ [])
    (hk : ∀ i ∈ l, tableKey i.Schema i.Table = tk) :
    groupByTable l = [(tk, l)] := by
  cases l with
  | nil => exact absurd rfl hl
  | cons i rest =>
    have hki : tableKey i.Schema i.Table = tk := hk i (List.mem_cons_self i rest)
    unfold groupByTable
    simp only [List.foldl_cons]
    have h0 : insertGroup (tableKey i.Schema i.Table) i [] = [(tk, [i])] := by
      simp [insertGroup, hki]
    rw [h0, groupByTable_single_aux tk rest [i]
      fun j hj => hk j (List.mem_cons_of_mem i hj)]
    simp

theorem pairFindings_double_length : ∀ (l : List IndexInfo),
    (∀ a ∈ l, ∀ b ∈ l, normalizeDef a.Definition = normalizeDef b.Definition) →
    2 * (pairFindings l).length = l.length * (l.length - 1) := by
  intro l
  induction l with
  | nil => intro _; rfl
  | cons x xs ih =>
    intro hdef
    have hall : ∀ y ∈ xs,
        (normalizeDef y.Definition == normalizeDef x.Definition) = true := by
      intro y hy
      rw [beq_iff_eq]
      exact hdef y (List.mem_cons_of_mem x hy) x (List.mem_cons_self x xs)
    have hfilter :
        xs.filter (fun y => normalizeDef y.Definition == normalizeDef x.Definition) = xs :=
      List.filter_eq_self.mpr hall
    have ihx := ih fun a ha b hb =>
      hdef a (List.mem_cons_of_mem x ha) b (List.mem_cons_of_mem x hb)
    simp only [pairFindings, dupScanFrom, hfilter, List.length_append,
      List.length_map, List.length_cons]
    cases hn : xs.length with
    | zero =>
      rw [hn] at ihx
      have : (pairFindings xs).length = 0 := by omega
      simp [this, hn]
    | succ m =>
      rw [hn] at ihx
      simp only [Nat.succ_sub_one]
      have : 2 * (m + 1 + (pairFindings xs).length) =
          2 * (m + 1) + 2 * (pairFindings xs).length := by ring
      rw [this, ihx]
      simp only [Nat.succ_sub_one]
      ring

theorem pairFindings_sound : ∀ (l : List IndexInfo) (f : Finding),
    f ∈ pairFindings l → ∃ x ∈ l, ∃ y ∈ l,
      normalizeDef x.Definition = normalizeDef y.Definition ∧
      f = mkDuplicateFinding x y := by
  intro l
  induction l with
  | nil => intro f hf; cases hf
  | cons x xs ih =>
    intro f hf
    rcases List.mem_append.mp hf with h | h
    · rcases List.mem_map.mp h with ⟨y, hy, rfl⟩
      rcases List.mem_filter.mp hy with ⟨hmem, hpred⟩
      rw [beq_iff_eq] at hpred
      exact ⟨x, List.mem_cons_self x xs, y, List.mem_cons_of_mem x hmem,
        hpred.symm, rfl⟩
    · rcases ih f h with ⟨a, ha, b, hb, hd, rfl⟩
      exact ⟨a, List.mem_cons_of_mem x ha, b, List.mem_cons_of_mem x hb, hd, rfl⟩

theorem insertGroup_mem (k : String) (i : IndexInfo) :
    ∀ (acc : List (String × List IndexInfo)) (p : String × List IndexInfo),
    p ∈ insertGroup k i acc → ∀ y ∈ p.2,
    (∃ q ∈ acc, y ∈ q.2 ∧ p.1 = q.1) ∨ (y = i ∧ p.1 = k) := by
  intro acc
  induction acc with
  | nil =>
    intro p hp y hy
    simp only [insertGroup, List.mem_singleton] at hp
    subst hp
    simp only [List.mem_singleton] at hy
    exact .inr ⟨hy, rfl⟩
  | cons q rest ih =>
    intro p hp y hy
    rcases q with ⟨k', g⟩
    by_cases hk : k' = k
    · rw [show insertGroup k i ((k', g) :: rest) = (k', g ++ [i]) :: rest by
        simp [insertGroup, hk]] at hp
      rcases List.mem_cons.mp hp with rfl | hp'
      · rcases List.mem_append.mp hy with h | h
        · exact .inl ⟨(k', g), List.mem_cons_self _ _, h, rfl⟩
        · simp only [List.mem_singleton] at h
          exact .inr ⟨h, hk⟩
      · exact .inl ⟨p, List.mem_cons_of_mem _ hp', hy, rfl⟩
    · rw [show insertGroup k i ((k', g) :: rest) = (k', g) :: insertGroup k i rest by
        simp [insertGroup, hk]] at hp
      rcases List.mem_cons.mp hp with rfl | hp'
      · exact .inl ⟨(k', g), List.mem_cons_self _ _, hy, rfl⟩
      · rcases ih p hp' y hy with ⟨q', hq', hyq, hpq⟩ | h
        · exact .inl ⟨q', List.mem_cons_of_mem _ hq', hyq, hpq⟩
        · exact .inr h

theorem groupFold_mem :
    ∀ (l : List IndexInfo) (acc : List (String × List IndexInfo))
      (base : List IndexInfo),
    (∀ p ∈ acc, ∀ y ∈ p.2, y ∈ base ∧ tableKey y.Schema y.Table = p.1) →
    ∀ p ∈ l.foldl (fun acc i => insertGroup (tableKey i.Schema i.Table) i acc) acc,
    ∀ y ∈ p.2, (y ∈ base ∨ y ∈ l) ∧ tableKey y.Schema y.Table = p.1 := by
  intro l
  induction l with
  | nil =>
    intro acc base hinv p hp y hy
    have := hinv p hp y hy
    exact ⟨.inl this.1, this.2⟩
  | cons i rest ih =>
    intro acc base hinv p hp y hy
    simp only [List.foldl_cons] at hp
    have hinv' : ∀ p ∈ insertGroup (tableKey i.Schema i.Table) i acc,
        ∀ y ∈ p.2, y ∈ base ++ [i] ∧ tableKey y.Schema y.Table = p.1 := by
      intro p' hp' y' hy'
      rcases insertGroup_mem _ _ acc p' hp' y' hy' with ⟨q, hq, hyq, hpq⟩ | ⟨rfl, hpk⟩
      · have := hinv q hq y' hyq
        exact ⟨List.mem_append_left _ this.1, hpq ▸ this.2⟩
      · exact ⟨List.mem_append_right _ (List.mem_singleton.mpr rfl), hpk.symm ▸ rfl⟩
    have := ih _ (base ++ [i]) hinv' p hp y hy
    rcases this with ⟨hmem, hkey⟩
    refine ⟨?_, hkey⟩
    rcases hmem with h | h
    · rcases List.mem_append.mp h with h' | h'
      · exact .inl h'
      · simp only [List.mem_singleton] at h'
        exact .inr (h' ▸ List.mem_cons_self i rest)
    · exact .inr (List.mem_cons_of_mem i h)

theorem groupByTable_mem (idxs : List IndexInfo) :
    ∀ p ∈ groupByTable idxs, ∀ y ∈ p.2, y ∈ idxs ∧ tableKey y.Schema y.Table = p.1 := by
  intro p hp y hy
  have := groupFold_mem idxs [] []
    (fun q hq => absurd hq (List.not_mem_nil q)) p hp y hy
  rcases this with ⟨hmem, hkey⟩
  rcases hmem with h | h
  · cases h
  · exact ⟨h, hkey⟩

/-- C7.  For a table whose k indexes all share one normalized definition,
detectDuplicateIndexes emits exactly k·(k−1)/2 findings; and every emitted
finding is a DUPLICATE_INDEX of severity low built from two indexes of the
same table with identical normalized definitions (so no finding arises from
a pair whose normalized definitions differ). -/
theorem duplicate_index_count (idxs : List IndexInfo) (tk : String) :
    ((∀ i ∈ idxs, tableKey i.Schema i.Table = tk) →
      (∀ a ∈ idxs, ∀ b ∈ idxs, normalizeDef a.Definition = normalizeDef b.Definition) →
      (detectDuplicateIndexes idxs).length = idxs.length * (idxs.length - 1) / 2)
    ∧ (∀ f ∈ detectDuplicateIndexes idxs,
        f.Type' = FindingDuplicateIndex ∧ f.Severity = SeverityLow ∧
        ∃ x ∈ idxs, ∃ y ∈ idxs,
          tableKey x.Schema x.Table = tableKey y.Schema y.Table ∧
          normalizeDef x.Definition = normalizeDef y.Definition ∧
          f = mkDuplicateFinding x y) := by
  constructor
  · intro hk hdef
    cases hi : idxs with
    | nil => rfl
    | cons i rest =>
      subst hi
      rw [detectDuplicateIndexes, groupByTable_single tk _ (by simp) hk]
      have h2 := pairFindings_double_length (i :: rest) hdef
      have hM : (i :: rest).length * ((i :: rest).length - 1) =
          (pairFindings (i :: rest)).length * 2 :=
        h2.symm.trans (Nat.mul_comm 2 _)
      have hdiv := Nat.div_eq_of_eq_mul_left (by norm_num : 0 < 2) hM
      simpa using hdiv.symm
  · intro f hf
    rcases List.mem_flatten.mp hf with ⟨gl, hgl, hfgl⟩
    rcases List.mem_map.mp hgl with ⟨p, hp, rfl⟩
    rcases pairFindings_sound p.2 f hfgl with ⟨x, hx, y, hy, hd, rfl⟩
    have hxm := groupByTable_mem idxs p hp x hx
    have hym := groupByTable_mem idxs p hp y hy
    exact ⟨rfl, rfl, x, hxm.1, y, hym.1, hxm.2.trans hym.2.symm, hd, rfl⟩

/-- C7 witness: three indexes on one table whose definitions agree after
normalization (whitespace collapsed, prefix before " ON " dropped — the
UNIQUE variant included) yield exactly 3 = C(3,2) findings. -/
theorem duplicate_index_count_witness :
    (detectDuplicateIndexes
      [⟨"public", "users", "idx_a", "CREATE INDEX idx_a ON users (email)", 0, 0, 0, 0⟩,
       ⟨"public", "users", "idx_b", "CREATE  INDEX idx_b  ON users (email)", 0, 0, 0, 0⟩,
       ⟨"public", "users", "idx_c", "CREATE UNIQUE INDEX idx_c ON users (email)", 0, 0, 0, 0⟩]).length
      = 3 := by
  have h := (duplicate_index_count
      [⟨"public", "users", "idx_a", "CREATE INDEX idx_a ON users (email)", 0, 0, 0, 0⟩,
       ⟨"public", "users", "idx_b", "CREATE  INDEX idx_b  ON users (email)", 0, 0, 0, 0⟩,
       ⟨"public", "users", "idx_c", "CREATE UNIQUE INDEX idx_c ON users (email)", 0, 0, 0, 0⟩]
      "public.users").1 (by decide) (by decide)
  simpa using h

/-! ## analyzer index advisor (internal/analyzer/index_advisor.go) -/

/-- Characters up to (excluding) the first close paren; none if unclosed. -/
def takeUntilClose : List Char → Option (List Char)
  | [] => none
  | c :: rest => if c = ')' then some [] else (takeUntilClose rest).map (c :: ·)

/-- Leftmost match of indexColumnRe `\\(([^)]+)\\)`: the first parenthesized
nonempty group; an empty "()" makes the scan resume at the next position,
as the regex engine does. -/
def firstParenGroup : List Char → Option (List Char)
  | [] => none
  | c :: rest =>
    if c = '(' then
      match takeUntilClose rest with
      | some [] => firstParenGroup rest
      | some inner => some inner
      | none => none
    else firstParenGroup rest

/-- strings.SplitN(col, " ", 2)[0]: the part before the first space. -/
def firstWord (s : String) : String :=
  String.mk (s.data.takeWhile fun c => c ≠ ' ')

def containsChar (s : String) (c : Char) : Bool := s.data.contains c

/-- analyzer.parseIndexColumns: the first parenthesized column list, split
on commas, trailing ordering modifiers stripped (first word only), entries
containing a paren discarded. -/
def parseIndexColumns (d : String) : List String :=
  match firstParenGroup d.data with
  | none => []
  | some inner =>
    (splitStr ',' (String.mk inner)).foldr
      (fun part acc =>
        let col := firstWord (trimStr part)
        if containsChar col '(' then acc
        else if col ≠ "" then col :: acc
        else acc)
      []

/-- analyzer.buildIndexedColumns: `schema.table.column` keys covered by some
index (a Go set; list membership plays the map lookup). -/
def buildIndexedColumns (indexes : List IndexInfo) : List String :=
  (indexes.map fun idx =>
    (parseIndexColumns idx.Definition).map fun col =>
      lowerStr idx.Schema ++ "." ++ lowerStr idx.Table ++ "." ++ lowerStr col).flatten

/-- The anonymous colKey struct inside DetectUnindexedQueries. -/
structure ColKey where
  schema : String
  table : String
  column : String
deriving DecidableEq, Repr

/-- The `refCounts[k]++` increment on an association list in first-insertion order. -/
def bumpCount : List (ColKey × Nat) → ColKey → List (ColKey × Nat)
  | [], k => [(k, 1)]
  | (k', n) :: rest, k =>
    if k' = k then (k', n + 1) :: rest
    else (k', n) :: bumpCount rest k

/-- The reference-counting loop of DetectUnindexedQueries: only indexable
contexts, tables that are nonempty and not "unknown" (case-insensitive). -/
def buildRefCounts (columnRefs : List ColumnRef) : List (ColKey × Nat) :=
  columnRefs.foldl
    (fun m cr =>
      if !(isIndexableContext cr.Context) then m
      else if cr.Table = "" ∨ lowerStr cr.Table = "unknown" then m
      else bumpCount m ⟨lowerStr cr.Schema, lowerStr cr.Table, lowerStr cr.Column⟩)
    []

/-- analyzer.DetectUnindexedQueries. -/
def DetectUnindexedQueries (columnRefs : List ColumnRef) (indexes : List IndexInfo)
    (tables : List TableInfo) : List Finding :=
  let indexedCols := buildIndexedColumns indexes
  let tableSet := tables.map fun t => lowerStr (t.Schema ++ "." ++ t.Name)
  (buildRefCounts columnRefs).foldr
    (fun kc acc =>
      let k := kc.1
      let schema :=
        if k.schema = "" then
          if tableSet.contains ("public." ++ k.table) then "public" else ""
        else k.schema
      if schema = "" then acc
      else if indexedCols.contains (schema ++ "." ++ k.table ++ "." ++ k.column) then acc
      else
        { Type' := FindingUnindexedQuery, Severity := SeverityMedium, Schema := schema,
          Table := k.table, Column := k.column, Index := "",
          Message := "column \"" ++ k.column ++ "\" used in WHERE/ORDER BY (" ++
            natToStr kc.2 ++ " references) but has no index",
          Detail := [] } :: acc)
    []

/-! ## Claim C8: the unindexed-query scenario -/

/-- C8.  A WHERE reference to orders.user_id with public.orders in the
snapshot: a composite index listing user_id in its first parenthesized
column list suppresses the finding; an index on created_at only yields
exactly one UNINDEXED_QUERY finding of severity medium.  The extraction
splits the parenthesized list on commas, strips trailing ordering
modifiers, and discards entries containing a paren. -/
theorem unindexed_query_scenario :
    DetectUnindexedQueries [⟨"orders", "user_id", "", "app.go", 1, ContextWhere⟩]
      [⟨"public", "orders", "idx_uc", "CREATE INDEX ON orders (user_id, created_at)",
        0, 0, 0, 0⟩]
      [⟨"public", "orders", "BASE TABLE", 0, 0⟩] = []
    ∧ DetectUnindexedQueries [⟨"orders", "user_id", "", "app.go", 1, ContextWhere⟩]
      [⟨"public", "orders", "idx_c", "CREATE INDEX ON orders (created_at)", 0, 0, 0, 0⟩]
      [⟨"public", "orders", "BASE TABLE", 0, 0⟩] =
      [⟨"UNINDEXED_QUERY", "medium", "public", "orders", "user_id", "",
        "column \"user_id\" used in WHERE/ORDER BY (1 references) but has no index", []⟩]
    ∧ parseIndexColumns "CREATE INDEX ON orders (user_id, created_at)" =
        ["user_id", "created_at"]
    ∧ parseIndexColumns "CREATE INDEX idx ON orders (created_at DESC NULLS LAST)" =
        ["created_at"]
    ∧ parseIndexColumns "CREATE INDEX idx_lower ON users (lower(email))" = [] := by
  refine ⟨?_, ?_, ?_, ?_, ?_⟩ <;> decide

/-! ## analyzer.Diff (internal/analyzer/diff.go) -/

/-- The dbTables map build in Diff: keyed by lowercased table name only
(no schema); Go's insert-overwrite makes the last snapshot table of a
given name win. -/
def buildDbTables (tables : List TableInfo) : String → Option TableInfo :=
  tables.foldl (fun m t => fun k => if k = lowerStr t.Name then some t else m k)
    (fun _ => none)

/-- The statsMap build in Diff, same overwrite semantics. -/
def buildStatsMap (stats : List TableStats) : String → Option TableStats :=
  stats.foldl (fun m s => fun k => if k = lowerStr s.Name then some s else m k)
    (fun _ => none)

def mkMissingTableFinding (tableName : String) : Finding :=
  { Type' := FindingMissingTable, Severity := SeverityHigh, Schema := "",
    Table := tableName, Column := "", Index := "",
    Message := "table \"" ++ tableName ++
      "\" referenced in code but does not exist in database",
    Detail := [] }

def mkCodeMatchFinding (tableName : String) (t : TableInfo) : Finding :=
  { Type' := FindingCodeMatch, Severity := SeverityInfo, Schema := t.Schema,
    Table := tableName, Column := "", Index := "",
    Message := "table \"" ++ tableName ++
      "\" exists in database and is referenced in code",
    Detail := [] }

/-- The first loop of Diff: each code table ref yields MISSING_TABLE or
CODE_MATCH depending only on the lowercased-name lookup. -/
def diffTableFindings (scanTables : List String) (snap : Snapshot) : List Finding :=
  scanTables.map fun tableName =>
    match buildDbTables snap.Tables (lowerStr tableName) with
    | none => mkMissingTableFinding tableName
    | some t => mkCodeMatchFinding tableName t

/-- The dbColumns set of Diff (`lower(table).lower(column)` keys). -/
def dbColumnsContains (cols : List ColumnInfo) (key : String) : Bool :=
  cols.any fun c => lowerStr c.Table ++ "." ++ lowerStr c.Name == key

def mkMissingColumnFinding (cr : ColumnRef) (t : TableInfo) : Finding :=
  { Type' := FindingMissingColumn, Severity := SeverityMedium, Schema := t.Schema,
    Table := cr.Table, Column := cr.Column, Index := "",
    Message := "column \"" ++ cr.Column ++
      "\" referenced in code but does not exist in table \"" ++ cr.Table ++ "\"",
    Detail := [] }

/-- The column loop of Diff, with its seenCols dedup. -/
def diffColumnLoop (dbTables : String → Option TableInfo) (cols : List ColumnInfo) :
    List ColumnRef → List String → List Finding
  | [], _ => []
  | cr :: rest, seen =>
    let tableLower := lowerStr cr.Table
    let colLower := lowerStr cr.Column
    if tableLower = "" then diffColumnLoop dbTables cols rest seen
    else
      match dbTables tableLower with
      | none => diffColumnLoop dbTables cols rest seen
      | some t =>
        let key := tableLower ++ "." ++ colLower
        if seen.contains key then diffColumnLoop dbTables cols rest seen
        else if dbColumnsContains cols key then
          diffColumnLoop dbTables cols rest (key :: seen)
        else mkMissingColumnFinding cr t :: diffColumnLoop dbTables cols rest (key :: seen)

def diffColumnFindings (columnRefs : List ColumnRef) (snap : Snapshot) : List Finding :=
  diffColumnLoop (buildDbTables snap.Tables) snap.Columns columnRefs []

def mkUnreferencedFinding (t : TableInfo) : Finding :=
  { Type' := FindingUnreferencedTable, Severity := SeverityLow, Schema := t.Schema,
    Table := t.Name, Column := "", Index := "",
    Message := "table \"" ++ t.Name ++
      "\" exists in database with no activity and is not referenced in code",
    Detail := [] }

/-- The third loop of Diff: snapshot tables neither referenced in code nor
showing activity (a missing stats row reads as Go's zero value). -/
def diffUnreferenced (scanTables : List String) (snap : Snapshot) : List Finding :=
  let codeRefs := scanTables.map lowerStr
  snap.Tables.foldr
    (fun t acc =>
      if codeRefs.contains (lowerStr t.Name) then acc
      else
        let stats := (buildStatsMap snap.Stats (lowerStr t.Name)).getD ⟨"", "", 0, 0, 0, 0⟩
        if stats.SeqScan = 0 ∧ stats.IdxScan = 0 then mkUnreferencedFinding t :: acc
        else acc)
    []

/-- analyzer.Diff without the trailing `Audit(snap, opts)` concatenation
(the audit detectors are embedded separately and emit none of the diff
finding types). -/
def diffFindings (scan : ScanResult) (snap : Snapshot) : List Finding :=
  diffTableFindings scan.Tables snap ++ diffColumnFindings scan.ColumnRefs snap ++
    diffUnreferenced scan.Tables snap

/-! ## Claim C10: diff lookups ignore the schema; last schema wins -/

theorem buildDbTables_eq (k : String) : ∀ tables : List TableInfo,
    buildDbTables tables k = (tables.filter fun t => lowerStr t.Name == k).getLast? := by
  intro tables
  induction tables using List.reverseRecOn with
  | nil => rfl
  | append_singleton l t ih =>
    by_cases h : k = lowerStr t.Name
    · have hb : (lowerStr t.Name == k) = true := by rw [beq_iff_eq]; exact h.symm
      simp only [buildDbTables, List.foldl_append, List.foldl_cons, List.foldl_nil,
        if_pos h, List.filter_append, List.filter_cons, hb, List.filter_nil]
      simp [List.getLast?_concat]
    · have hb : (lowerStr t.Name == k) = false := by
        rw [beq_eq_false_iff_ne]
        exact fun he => h he.symm
      simp only [buildDbTables, List.foldl_append, List.foldl_cons, List.foldl_nil,
        if_neg h, List.filter_append, List.filter_cons, hb, List.filter_nil]
      simpa [buildDbTables] using ih

theorem diffColumnLoop_schema (dbTables : String → Option TableInfo)
    (cols : List ColumnInfo) : ∀ (refs : List ColumnRef) (seen : List String),
    ∀ f ∈ diffColumnLoop dbTables cols refs seen,
    ∃ cr t, dbTables (lowerStr cr.Table) = some t ∧ f = mkMissingColumnFinding cr t := by
  intro refs
  induction refs with
  | nil => intro seen f hf; cases hf
  | cons cr rest ih =>
    intro seen f hf
    by_cases h1 : lowerStr cr.Table = ""
    · rw [show diffColumnLoop dbTables cols (cr :: rest) seen =
        diffColumnLoop dbTables cols rest seen by
          simp [diffColumnLoop, h1]] at hf
      exact ih seen f hf
    · rcases ht : dbTables (lowerStr cr.Table) with _ | t
      · rw [show diffColumnLoop dbTables cols (cr :: rest) seen =
          diffColumnLoop dbTables cols rest seen by
            simp [diffColumnLoop, h1, ht]] at hf
        exact ih seen f hf
      · by_cases h2 : (lowerStr cr.Table ++ "." ++ lowerStr cr.Column) ∈ seen
        · rw [show diffColumnLoop dbTables cols (cr :: rest) seen =
            diffColumnLoop dbTables cols rest seen by
              simp [diffColumnLoop, h1, ht, h2]] at hf
          exact ih seen f hf
        · by_cases h3 : dbColumnsContains cols
              (lowerStr cr.Table ++ "." ++ lowerStr cr.Column) = true
          · rw [show diffColumnLoop dbTables cols (cr :: rest) seen =
              diffColumnLoop dbTables cols rest
                ((lowerStr cr.Table ++ "." ++ lowerStr cr.Column) :: seen) by
                simp [diffColumnLoop, h1, ht, h2, h3]] at hf
            exact ih _ f hf
          · rw [show diffColumnLoop dbTables cols (cr :: rest) seen =
              mkMissingColumnFinding cr t :: diffColumnLoop dbTables cols rest
                ((lowerStr cr.Table ++ "." ++ lowerStr cr.Column) :: seen) by
                simp [diffColumnLoop, h1, ht, h2, h3]] at hf
            rcases List.mem_cons.mp hf with rfl | hf'
            · exact ⟨cr, t, ht, rfl⟩
            · exact ih _ f hf'

/-- C10.  The diff detectors look tables up by lowercased name only: a code
table ref whose lowercased name matches a snapshot table in any schema
yields a CODE_MATCH finding built from the last matching snapshot table
(never MISSING_TABLE for that name); a MISSING_TABLE finding implies no
snapshot table of that lowercased name exists in any schema; and every
MISSING_COLUMN finding carries the schema of the last snapshot table whose
lowercased name matches the ref's table. -/
theorem diff_lookup_by_name (scan : ScanResult) (snap : Snapshot) :
    (∀ name ∈ scan.Tables, ∀ t : TableInfo,
      (snap.Tables.filter fun x => lowerStr x.Name == lowerStr name).getLast? = some t →
        mkCodeMatchFinding name t ∈ diffTableFindings scan.Tables snap
        ∧ ∀ f ∈ diffTableFindings scan.Tables snap,
            f.Table = name → f.Type' ≠ FindingMissingTable)
    ∧ (∀ f ∈ diffTableFindings scan.Tables snap, f.Type' = FindingMissingTable →
        (snap.Tables.filter fun x => lowerStr x.Name == lowerStr f.Table).getLast? = none)
    ∧ (∀ f ∈ diffColumnFindings scan.ColumnRefs snap, ∃ cr t,
        (snap.Tables.filter fun x => lowerStr x.Name == lowerStr cr.Table).getLast? = some t
        ∧ f = mkMissingColumnFinding cr t ∧ f.Schema = t.Schema) := by
  refine ⟨?_, ?_, ?_⟩
  · intro name hname t ht
    rw [← buildDbTables_eq] at ht
    constructor
    · unfold diffTableFindings
      refine List.mem_map.mpr ⟨name, hname, ?_⟩
      rw [ht]
    · intro f hf hft
      rcases List.mem_map.mp hf with ⟨name', hname', rfl⟩
      rcases hl : buildDbTables snap.Tables (lowerStr name') with _ | t'
      · rw [hl] at hft
        have hne : name' = name := by
          simpa [mkMissingTableFinding] using hft
        rw [hne] at hl
        rw [hl] at ht
        cases ht
      · intro hcontra
        simp [mkCodeMatchFinding, FindingCodeMatch, FindingMissingTable] at hcontra
  · intro f hf hft
    rcases List.mem_map.mp hf with ⟨name', hname', rfl⟩
    rcases hl : buildDbTables snap.Tables (lowerStr name') with _ | t'
    · dsimp only [mkMissingTableFinding]
      rw [← buildDbTables_eq]
      exact hl
    · rw [hl] at hft
      simp [mkCodeMatchFinding, FindingCodeMatch, FindingMissingTable] at hft
  · intro f hf
    rcases diffColumnLoop_schema (buildDbTables snap.Tables) snap.Columns
      scan.ColumnRefs [] f hf with ⟨cr, t, ht, rfl⟩
    rw [buildDbTables_eq] at ht
    exact ⟨cr, t, ht, rfl, rfl⟩

def c10Snap : Snapshot :=
  ⟨[⟨"alpha", "users", "BASE TABLE", 0, 0⟩, ⟨"beta", "users", "BASE TABLE", 0, 0⟩],
    [], [], [], []⟩

def c10Scan : ScanResult :=
  ⟨"r", [], [⟨"users", "ghost", "", "f", 1, "WHERE"⟩], ["Users"], [], 0, 0⟩

/-- C10 witness: with `users` present in schemas alpha and beta, the code ref
"Users" yields a CODE_MATCH carrying the last schema (beta), and the
MISSING_COLUMN finding for users.ghost also carries beta. -/
theorem diff_lookup_by_name_witness :
    mkCodeMatchFinding "Users" ⟨"beta", "users", "BASE TABLE", 0, 0⟩ ∈
      diffTableFindings c10Scan.Tables c10Snap
    ∧ ∃ cr t,
        ((c10Snap.Tables.filter fun x => lowerStr x.Name == lowerStr cr.Table).getLast?
            = some t
          ∧ mkMissingColumnFinding ⟨"users", "ghost", "", "f", 1, "WHERE"⟩
              ⟨"beta", "users", "BASE TABLE", 0, 0⟩ = mkMissingColumnFinding cr t
          ∧ (mkMissingColumnFinding ⟨"users", "ghost", "", "f", 1, "WHERE"⟩
              ⟨"beta", "users", "BASE TABLE", 0, 0⟩).Schema = t.Schema) := by
  constructor
  · exact ((diff_lookup_by_name c10Scan c10Snap).1 "Users" (by decide)
      ⟨"beta", "users", "BASE TABLE", 0, 0⟩ (by decide)).1
  · exact (diff_lookup_by_name c10Scan c10Snap).2.2 _ (by decide)

end PgSpectre
